import Mathlib

/-!
# Verification of the serverless contact API (src/index.mjs)

Shallow embedding of the DynamoDB-backed slot rate limiter
(`consume`, `checkRateLimit`) and of the Lambda request `handler`,
together with proofs of the specified properties.

The DynamoDB rate table is modelled as a list of items (partition key,
ttl attribute).  The DynamoDB client call `ddb.send(PutItemCommand ...)`
with `ConditionExpression: "attribute_not_exists(pk)"` is modelled by
`ddbPutIfAbsent`, parameterised by a fault oracle `faults` that may make
the call raise an arbitrary exception name instead of performing the
conditional write (modelling network/service faults).  Exceptions are
modelled with `Except String`, the error being the exception name.
-/

namespace ContactApi

/-- An item of the DynamoDB rate table: partition key `pk` and the
numeric `ttl` attribute (epoch seconds). -/
structure Store where
  items : List (String × Nat)
deriving DecidableEq

/-- The condition `attribute_not_exists(pk)` is violated iff the key is present. -/
def Store.hasKey (s : Store) (k : String) : Bool :=
  s.items.any (fun p => p.1 == k)

/-- The empty rate table. -/
def Store.empty : Store := ⟨[]⟩

/-- Decimal digit character, as produced by JS number-to-string. -/
def decDigit (d : Nat) : Char := Char.ofNat (48 + d)

/-- Fuel-driven decimal rendering: with enough fuel, renders `n` in
base 10, most significant digit first. -/
def decCharsAux (fuel : Nat) (n : Nat) : List Char :=
  match fuel with
  | 0 => []
  | fuel' + 1 =>
      if n < 10 then [decDigit n]
      else decCharsAux fuel' (n / 10) ++ [decDigit (n % 10)]

/-- Decimal rendering of a natural number (the JS template-literal
`${n}` for the nonnegative integers used as window and slot indices). -/
def decChars (n : Nat) : List Char := decCharsAux (n + 1) n

/-- Decimal rendering as a string. -/
def decStr (n : Nat) : String := String.mk (decChars n)

/-- The rate-limit slot key `ip#<IP>#hour#<HOUR>#slot#<N>`
built in `checkRateLimit` (src/index.mjs line 86). -/
def slotKey (ip : String) (hour slot : Nat) : String :=
  "ip#" ++ ip ++ "#hour#" ++ decStr hour ++ "#slot#" ++ decStr slot

/-- A fault oracle: for a key, `some e` means the store call for that key
raises exception `e` instead of performing the conditional write. -/
def Faults : Type := String → Option String

/-- The fault-free oracle: every store call behaves per DynamoDB
conditional-write semantics. -/
def noFaults : Faults := fun _ => none

/-- The `ddb.send` of the conditional `PutItemCommand` (src/index.mjs lines
53-64): raises the injected fault if any; otherwise raises
`ConditionalCheckFailedException` when the key exists, else inserts
the item `{pk, ttl}`. -/
def ddbPutIfAbsent (faults : Faults) (s : Store) (pk : String) (ttl : Nat) :
    Except String Store :=
  match faults pk with
  | some e => .error e
  | none =>
      if s.hasKey pk then .error "ConditionalCheckFailedException"
      else .ok ⟨(pk, ttl) :: s.items⟩

/-- Function `consume(pk, ttlSeconds)` (src/index.mjs lines 49-72): attempts the
conditional write with `ttl = now + ttlSeconds`; returns `true` on
success, `false` on `ConditionalCheckFailedException`, and rethrows any
other error.  `now` is the clock reading `Math.floor(Date.now()/1000)`
taken inside `consume`, i.e. at write time. -/
def consume (faults : Faults) (s : Store) (pk : String) (ttlSeconds now : Nat) :
    Except String (Bool × Store) :=
  let ttl := now + ttlSeconds
  match ddbPutIfAbsent faults s pk ttl with
  | .ok s2 => .ok (true, s2)
  | .error e =>
      if e = "ConditionalCheckFailedException" then .ok (false, s)
      else .error e

/-- The slot keys probed by `checkRateLimit`, in loop order
`i = 1, 2, ..., limit`. -/
def probeKeys (ip : String) (hour limit : Nat) : List String :=
  (List.range' 1 limit).map (fun i => slotKey ip hour i)

/-- The `for` loop of `checkRateLimit` (src/index.mjs lines 85-92):
try to claim each key in order; return `true` at the first successful
`consume`, `false` after the list is exhausted; any unexpected `consume`
error propagates. -/
def tryAcquireSlots (faults : Faults) (now ttlSeconds : Nat) :
    List String → Store → Except String (Bool × Store)
  | [], s => .ok (false, s)
  | k :: ks, s =>
      match consume faults s k ttlSeconds now with
      | .error e => .error e
      | .ok (true, s2) => .ok (true, s2)
      | .ok (false, s2) => tryAcquireSlots faults now ttlSeconds ks s2

/-- Function `checkRateLimit(ip)` (src/index.mjs lines 80-96): computes the hour
window `floor(now / 3600)`, then probes slots `1..LIMIT` with
`ttlSeconds = 3700`. -/
def checkRateLimit (faults : Faults) (limit : Nat) (ip : String) (now : Nat)
    (s : Store) : Except String (Bool × Store) :=
  let hour := now / 3600
  let ttlSeconds := 3700
  tryAcquireSlots faults now ttlSeconds (probeKeys ip hour limit) s

/-! ### Injectivity of the slot-key encoding -/

/-- Value of a digit string, inverse of `decCharsAux`. -/
def decVal (l : List Char) : Nat :=
  l.foldl (fun a c => a * 10 + (c.toNat - 48)) 0

theorem decDigit_toNat {d : Nat} (h : d < 10) : (decDigit d).toNat = 48 + d := by
  interval_cases d <;> rfl

theorem decVal_append (l : List Char) (c : Char) :
    decVal (l ++ [c]) = decVal l * 10 + (c.toNat - 48) := by
  simp [decVal, List.foldl_append]

theorem decVal_decCharsAux : ∀ fuel n, n < fuel → decVal (decCharsAux fuel n) = n := by
  intro fuel
  induction fuel with
  | zero => intro n h; omega
  | succ fuel' ih =>
      intro n h
      rw [decCharsAux]
      by_cases h10 : n < 10
      · simp [h10, decVal, decDigit_toNat h10]
      · have hdiv : n / 10 < fuel' := by omega
        simp only [h10, if_false, decVal_append, ih _ hdiv,
          decDigit_toNat (Nat.mod_lt n (by omega))]
        omega

theorem decVal_decChars (n : Nat) : decVal (decChars n) = n :=
  decVal_decCharsAux (n + 1) n (Nat.lt_succ_self n)

theorem decChars_inj {m n : Nat} (h : decChars m = decChars n) : m = n := by
  have := congrArg decVal h
  rwa [decVal_decChars, decVal_decChars] at this

theorem decCharsAux_digit_bound :
    ∀ fuel n c, c ∈ decCharsAux fuel n → 48 ≤ c.toNat ∧ c.toNat ≤ 57 := by
  intro fuel
  induction fuel with
  | zero => intro n c hc; simp [decCharsAux] at hc
  | succ fuel' ih =>
      intro n c hc
      rw [decCharsAux] at hc
      by_cases h10 : n < 10
      · simp [h10] at hc
        subst hc
        rw [decDigit_toNat h10]; omega
      · simp [h10] at hc
        rcases hc with hc | hc
        · exact ih _ _ hc
        · subst hc
          rw [decDigit_toNat (Nat.mod_lt n (by omega))]; omega

theorem hash_not_mem_decChars (n : Nat) : '#' ∉ decChars n := by
  intro hmem
  have := decCharsAux_digit_bound (n + 1) n _ hmem
  simp at this

/-- Splitting at a `'#'` separator: digit-free prefixes and the
remainders agree. -/
theorem append_hash_cancel :
    ∀ (l1 l2 r1 r2 : List Char), '#' ∉ l1 → '#' ∉ l2 →
      l1 ++ '#' :: r1 = l2 ++ '#' :: r2 → l1 = l2 ∧ r1 = r2 := by
  intro l1
  induction l1 with
  | nil =>
      intro l2 r1 r2 _ h2 h
      cases l2 with
      | nil => simpa using h
      | cons b t =>
          simp at h
          exact absurd (h.1 ▸ List.mem_cons_self b t) (h.1 ▸ h2)
  | cons a t ih =>
      intro l2 r1 r2 h1 h2 h
      cases l2 with
      | nil =>
          simp at h
          exact absurd (h.1 ▸ List.mem_cons_self a t) (h.1 ▸ h1)
      | cons b t2 =>
          simp at h
          obtain ⟨hab, hrest⟩ := h
          have h1' : '#' ∉ t := fun hm => h1 (List.mem_cons_of_mem a hm)
          have h2' : '#' ∉ t2 := fun hm => h2 (List.mem_cons_of_mem b hm)
          obtain ⟨he, hr⟩ := ih t2 r1 r2 h1' h2' hrest
          exact ⟨by rw [hab, he], hr⟩

/-- The slot-key encoding is injective: identity, window and slot number
are all recoverable from the key string. -/
theorem slotKey_inj {ip ip' : String} {h h' i j : Nat}
    (heq : slotKey ip h i = slotKey ip' h' j) : ip = ip' ∧ h = h' ∧ i = j := by
  have hdata := congrArg (fun s => s.data.reverse) heq
  simp only [slotKey, decStr, String.data_append, List.reverse_append] at hdata
  -- reversed layout: rev (dec i) ++ '#'-separated segments
  have hsep1 := append_hash_cancel _ _ _ _
    (by intro hm; exact hash_not_mem_decChars i (List.mem_reverse.mp hm))
    (by intro hm; exact hash_not_mem_decChars j (List.mem_reverse.mp hm))
    (by simpa using hdata)
  obtain ⟨hi, hrest1⟩ := hsep1
  have hij : i = j := decChars_inj (List.reverse_injective hi)
  simp only [List.cons.injEq, true_and] at hrest1
  have hsep2 := append_hash_cancel _ _ _ _
    (by intro hm; exact hash_not_mem_decChars h (List.mem_reverse.mp hm))
    (by intro hm; exact hash_not_mem_decChars h' (List.mem_reverse.mp hm))
    (by simpa using hrest1)
  obtain ⟨hh, hrest2⟩ := hsep2
  have hhh : h = h' := decChars_inj (List.reverse_injective hh)
  have hip : ip = ip' := by
    simp only [List.cons.injEq, true_and] at hrest2
    have : ip.data.reverse = ip'.data.reverse := by simpa using hrest2
    exact String.ext (List.reverse_injective this)
  exact ⟨hip, hhh, hij⟩

example :
    checkRateLimit noFaults 2 "1.2.3.4" 7200 Store.empty =
      .ok (true, ⟨[("ip#1.2.3.4#hour#2#slot#1", 7200 + 3700)]⟩) := rfl

example :
    checkRateLimit noFaults 0 "1.2.3.4" 7200 Store.empty =
      .ok (false, Store.empty) := rfl

/-! ### Fault-free behaviour of `consume` and `checkRateLimit` -/

theorem consume_noFaults (s : Store) (k : String) (t now : Nat) :
    consume noFaults s k t now =
      if s.hasKey k then .ok (false, s) else .ok (true, ⟨(k, now + t) :: s.items⟩) := by
  by_cases h : s.hasKey k <;> simp [consume, ddbPutIfAbsent, noFaults, h]

/-- The slot loop, fault-free: succeed on the first absent key
(in list order), inserting it; fail if every key is present. -/
theorem tryAcquireSlots_noFaults (now t : Nat) :
    ∀ (ks : List String) (s : Store),
      tryAcquireSlots noFaults now t ks s =
        match ks.find? (fun k => !(s.hasKey k)) with
        | some k => .ok (true, ⟨(k, now + t) :: s.items⟩)
        | none => .ok (false, s) := by
  intro ks
  induction ks with
  | nil => intro s; rfl
  | cons k ks ih =>
      intro s
      by_cases h : s.hasKey k
      · rw [tryAcquireSlots, consume_noFaults, if_pos h,
          List.find?_cons_of_neg _ (by simp [h])]
        exact ih s
      · rw [tryAcquireSlots, consume_noFaults, if_neg h,
          List.find?_cons_of_pos _ (by simp [h])]

theorem find?_eq_head?_of_forall {α : Type} (p : α → Bool) :
    ∀ l : List α, (∀ x ∈ l, p x = true) → l.find? p = l.head? := by
  intro l
  induction l with
  | nil => intro _; rfl
  | cons a t _ =>
      intro h
      rw [List.find?_cons_of_pos _ (h a (List.mem_cons_self a t))]
      rfl

/-- Extract the allow/deny decision of a rate-limit call
(`none` when the call raised an error). -/
def rlAllowed (x : Except String (Bool × Store)) : Option Bool :=
  match x with
  | .ok p => some p.1
  | .error _ => none

/-- C2 main equation: `checkRateLimit` computes the window
`floor(now / 3600)`, probes the keys `(ip, window, 1..limit)` in
ascending order, succeeds on the first conditional create that finds its
key absent (inserting that key with `ttl = now + 3700`), and denies when
every probed key is already present. -/
theorem checkRateLimit_spec (limit : Nat) (ip : String) (now : Nat) (s : Store) :
    checkRateLimit noFaults limit ip now s =
      match (probeKeys ip (now / 3600) limit).find? (fun k => !(s.hasKey k)) with
      | some k => .ok (true, ⟨(k, now + 3700) :: s.items⟩)
      | none => .ok (false, s) :=
  tryAcquireSlots_noFaults now 3700 (probeKeys ip (now / 3600) limit) s

theorem checkRateLimit_denied_of_all_present (limit : Nat) (ip : String)
    (now : Nat) (s : Store)
    (h : ∀ k ∈ probeKeys ip (now / 3600) limit, s.hasKey k = true) :
    checkRateLimit noFaults limit ip now s = .ok (false, s) := by
  rw [checkRateLimit_spec]
  have : (probeKeys ip (now / 3600) limit).find? (fun k => !(s.hasKey k)) = none := by
    rw [List.find?_eq_none]
    intro k hk
    simp [h k hk]
  rw [this]

/-! ### C2, C5, C6, C7 -/

/-- C2: for every identity, limit and time `now`, `checkRateLimit`
computes the window `floor(now / 3600)`, probes the slot keys
`(ip, window, slot)` for `slot = 1..limit` in ascending order, returns
`true` at the first create-if-absent that finds its key free, returns
`false` when every probed key exists (store untouched), and for
`limit = 0` returns `false` without performing any store call (under any
fault oracle). -/
theorem C2_probe_order :
    (∀ (limit : Nat) (ip : String) (now : Nat) (s : Store),
      checkRateLimit noFaults limit ip now s =
        match (probeKeys ip (now / 3600) limit).find? (fun k => !(s.hasKey k)) with
        | some k => .ok (true, ⟨(k, now + 3700) :: s.items⟩)
        | none => .ok (false, s)) ∧
    (∀ (limit : Nat) (ip : String) (now : Nat) (s : Store),
      (∀ k ∈ probeKeys ip (now / 3600) limit, s.hasKey k = true) →
      checkRateLimit noFaults limit ip now s = .ok (false, s)) ∧
    (∀ (faults : Faults) (ip : String) (now : Nat) (s : Store),
      checkRateLimit faults 0 ip now s = .ok (false, s)) := by
  refine ⟨checkRateLimit_spec, checkRateLimit_denied_of_all_present, ?_⟩
  intro faults ip now s
  rfl

theorem C2_probe_order_witness :
    checkRateLimit noFaults 1 "9.9.9.9" 3600 ⟨[(slotKey "9.9.9.9" 1 1, 0)]⟩ =
      .ok (false, ⟨[(slotKey "9.9.9.9" 1 1, 0)]⟩) :=
  C2_probe_order.2.1 1 "9.9.9.9" 3600 ⟨[(slotKey "9.9.9.9" 1 1, 0)]⟩ (by decide)

/-- C5: once `checkRateLimit` has denied (returned `false`) for a
window, the store is unchanged, and every further call for the same
identity whose time falls in the same window — even after other callers
have added further keys — is denied again and creates no key. -/
theorem C5_denial_idempotent (limit : Nat) (ip : String) (now : Nat)
    (s s₁ : Store)
    (h : checkRateLimit noFaults limit ip now s = .ok (false, s₁)) :
    s₁ = s ∧
    ∀ (now2 : Nat) (s₂ : Store), now2 / 3600 = now / 3600 →
      (∀ k, s.hasKey k = true → s₂.hasKey k = true) →
      checkRateLimit noFaults limit ip now2 s₂ = .ok (false, s₂) := by
  rw [checkRateLimit_spec] at h
  cases hf : (probeKeys ip (now / 3600) limit).find? (fun k => !(s.hasKey k)) with
  | some k => rw [hf] at h; simp at h
  | none =>
      rw [hf] at h
      simp only [Except.ok.injEq, Prod.mk.injEq, true_and] at h
      refine ⟨h.symm, ?_⟩
      intro now2 s₂ hw hsub
      have hall : ∀ k ∈ probeKeys ip (now2 / 3600) limit, s₂.hasKey k = true := by
        intro k hk
        rw [hw] at hk
        have := List.find?_eq_none.mp hf k hk
        exact hsub k (by simpa using this)
      exact checkRateLimit_denied_of_all_present limit ip now2 s₂ hall

theorem C5_denial_idempotent_witness :
    checkRateLimit noFaults 1 "9.9.9.9" 3601 ⟨[(slotKey "9.9.9.9" 1 1, 0)]⟩ =
      .ok (false, ⟨[(slotKey "9.9.9.9" 1 1, 0)]⟩) :=
  (C5_denial_idempotent 1 "9.9.9.9" 3600 ⟨[(slotKey "9.9.9.9" 1 1, 0)]⟩
      ⟨[(slotKey "9.9.9.9" 1 1, 0)]⟩ rfl).2 3601 _ (by decide) (fun _ hk => hk)

/-- C6: windows are independent.  If every key in the store is a slot
key of window `w` (of any identity), a call whose time falls in window
`w + 1` decides exactly as it would against an empty store: keys created
in window `w` never affect window `w + 1`. -/
theorem C6_windows_independent (limit : Nat) (ip : String) (w now2 : Nat)
    (s : Store)
    (hkeys : ∀ item ∈ s.items, ∃ ip' j, item.1 = slotKey ip' w j)
    (hw : now2 / 3600 = w + 1) :
    rlAllowed (checkRateLimit noFaults limit ip now2 s) =
      rlAllowed (checkRateLimit noFaults limit ip now2 Store.empty) := by
  have habsent : ∀ k ∈ probeKeys ip (now2 / 3600) limit, s.hasKey k = false := by
    intro k hk
    rw [hw] at hk
    obtain ⟨i, _, hki⟩ := List.mem_map.mp hk
    by_contra hkey
    have hkey' : s.hasKey k = true := by
      cases hcase : s.hasKey k with
      | true => rfl
      | false => exact absurd hcase hkey
    obtain ⟨item, hitem, hbeq⟩ := List.any_eq_true.mp hkey'
    obtain ⟨ip', j, hform⟩ := hkeys item hitem
    have : slotKey ip' w j = slotKey ip (w + 1) i := by
      rw [← hform, hki]
      exact (eq_of_beq hbeq)
    have := (slotKey_inj this).2.1
    omega
  rw [checkRateLimit_spec, checkRateLimit_spec]
  rw [find?_eq_head?_of_forall _ _ (by intro k hk; simp [habsent k hk])]
  rw [find?_eq_head?_of_forall _ _ (by intro k _; rfl)]
  cases (probeKeys ip (now2 / 3600) limit).head? <;> rfl

theorem C6_windows_independent_witness :
    rlAllowed (checkRateLimit noFaults 1 "9.9.9.9" 7200
        ⟨[(slotKey "9.9.9.9" 1 1, 3700)]⟩) =
      rlAllowed (checkRateLimit noFaults 1 "9.9.9.9" 7200 Store.empty) :=
  C6_windows_independent 1 "9.9.9.9" 1 7200 ⟨[(slotKey "9.9.9.9" 1 1, 3700)]⟩
    (by
      intro item hitem
      rw [List.mem_singleton] at hitem
      exact ⟨"9.9.9.9", 1, by rw [hitem]⟩)
    (by decide)

/-- C7: every successfully created slot key is written with
`ttl = now + 3700 = now + windowLength (3600) + slack (100)`, with
`slack = 100 ≥ 100`, where `now` is the epoch-second reading passed to
the write; `checkRateLimit` passes exactly `ttlSeconds = 3700`. -/
theorem C7_ttl_slack :
    (∀ (s : Store) (pk : String) (now : Nat), s.hasKey pk = false →
      consume noFaults s pk 3700 now =
        .ok (true, ⟨(pk, now + 3600 + 100) :: s.items⟩)) ∧
    (∀ (limit : Nat) (ip : String) (now : Nat) (s s' : Store),
      checkRateLimit noFaults limit ip now s = .ok (true, s') →
      ∃ k ∈ probeKeys ip (now / 3600) limit,
        s' = ⟨(k, now + 3600 + 100) :: s.items⟩) ∧
    3700 = 3600 + 100 ∧ 100 ≥ 100 := by
  refine ⟨?_, ?_, rfl, le_refl 100⟩
  · intro s pk now h
    rw [consume_noFaults, if_neg (by simp [h])]
  · intro limit ip now s s' h
    rw [checkRateLimit_spec] at h
    cases hf : (probeKeys ip (now / 3600) limit).find? (fun k => !(s.hasKey k)) with
    | none => rw [hf] at h; simp at h
    | some k =>
        rw [hf] at h
        refine ⟨k, List.mem_of_find?_eq_some hf, ?_⟩
        simp only [Except.ok.injEq, Prod.mk.injEq, true_and] at h
        rw [← h]

theorem C7_ttl_slack_witness :
    consume noFaults Store.empty "ip#9.9.9.9#hour#1#slot#1" 3700 5 =
      .ok (true, ⟨[("ip#9.9.9.9#hour#1#slot#1", 5 + 3600 + 100)]⟩) :=
  C7_ttl_slack.1 Store.empty "ip#9.9.9.9#hour#1#slot#1" 5 rfl

/-! ### C1: interleaved concurrent callers

The only shared state is the store, and its conditional write is the
only atomic synchronisation point (linearizable create-if-absent per
key).  A system is the shared store plus any number of in-flight
`checkRateLimit` calls for one (identity, window) pair; a step lets an
arbitrary still-running caller perform its next atomic action. -/

/-- One concurrent `checkRateLimit` caller: the slot keys it still has
to probe (in order), its own clock reading (used only for the ttl it
writes), and its result — `none` while still running. -/
structure Caller where
  pending : List String
  cnow : Nat
  result : Option Bool
deriving DecidableEq

/-- Shared store plus the in-flight callers. -/
structure Sys where
  store : Store
  callers : List Caller
deriving DecidableEq

/-- One atomic action of a caller, i.e. the loop of `checkRateLimit` cut
at its store operations: with no keys left to probe return `false`;
otherwise perform the conditional write for the next key — on contention
(key present) move on, on successful creation return `true`. -/
def callerStep (s : Store) (c : Caller) : Store × Caller :=
  match c.pending with
  | [] => (s, { c with result := some false })
  | k :: ks =>
      if s.hasKey k then (s, { c with pending := ks })
      else (⟨(k, c.cnow + 3700) :: s.items⟩,
            { c with pending := [], result := some true })

/-- Interleaving: one still-running caller performs its next atomic
action against the shared store. -/
inductive SysStep : Sys → Sys → Prop where
  | step (sys : Sys) (i : Nat) (h : i < sys.callers.length)
      (hrun : (sys.callers.get ⟨i, h⟩).result = none) :
      SysStep sys
        ⟨(callerStep sys.store (sys.callers.get ⟨i, h⟩)).1,
         sys.callers.set i (callerStep sys.store (sys.callers.get ⟨i, h⟩)).2⟩

/-- Reflexive-transitive closure of `SysStep`. -/
inductive SysReach : Sys → Sys → Prop where
  | refl (sys : Sys) : SysReach sys sys
  | tail {a b c : Sys} : SysReach a b → SysStep b c → SysReach a c

/-- Number of callers whose call returned `true`. -/
def countTrue (cs : List Caller) : Nat :=
  cs.countP (fun c => c.result == some true)

/-- Number of entries of the probe list `P` whose key is present in the
store (counted with multiplicity in `P`). -/
def presentCount (P : List String) (s : Store) : Nat :=
  (P.filter (fun k => s.hasKey k)).length

theorem countP_set_aux (p : Caller → Bool) :
    ∀ (cs : List Caller) (i : Nat) (c c' : Caller) (h : i < cs.length),
      cs.get ⟨i, h⟩ = c →
      (cs.set i c').countP p + (if p c then 1 else 0) =
        cs.countP p + (if p c' then 1 else 0) := by
  intro cs
  induction cs with
  | nil => intro i c c' h _; exact absurd h (by simp)
  | cons a tl ih =>
      intro i c c' h hget
      cases i with
      | zero =>
          simp only [List.get] at hget
          subst hget
          simp [List.countP_cons]
          omega
      | succ i' =>
          have h' : i' < tl.length := by simpa using h
          have := ih i' c c' h' (by simpa using hget)
          simp only [List.set, List.countP_cons]
          omega

theorem countP_set_pred_eq (p : Caller → Bool) (cs : List Caller) (i : Nat)
    (c c' : Caller) (h : i < cs.length) (hget : cs.get ⟨i, h⟩ = c)
    (hpc : p c = false) (hpc' : p c' = false) :
    (cs.set i c').countP p = cs.countP p := by
  have heq := countP_set_aux p cs i c c' h hget
  rw [hpc, hpc'] at heq
  simpa using heq

theorem countP_set_true (p : Caller → Bool) (cs : List Caller) (i : Nat)
    (c c' : Caller) (h : i < cs.length) (hget : cs.get ⟨i, h⟩ = c)
    (hpc : p c = false) (hpc' : p c' = true) :
    (cs.set i c').countP p = cs.countP p + 1 := by
  have heq := countP_set_aux p cs i c c' h hget
  rw [hpc, hpc'] at heq
  simpa using heq

theorem length_filter_mono {α : Type} (p q : α → Bool)
    (h : ∀ x, p x = true → q x = true) :
    ∀ l : List α, (l.filter p).length ≤ (l.filter q).length := by
  intro l
  induction l with
  | nil => simp
  | cons a tl ih =>
      by_cases hp : p a
      · rw [List.filter_cons_of_pos hp, List.filter_cons_of_pos (h a hp)]
        simpa using ih
      · rw [List.filter_cons_of_neg (by simpa using hp)]
        by_cases hq : q a
        · rw [List.filter_cons_of_pos hq]
          exact le_trans ih (by simp)
        · rw [List.filter_cons_of_neg (by simpa using hq)]
          exact ih

theorem hasKey_cons (s : Store) (k x : String) (t : Nat) :
    (Store.mk ((k, t) :: s.items)).hasKey x = ((k == x) || s.hasKey x) := rfl

theorem hasKey_insert_of_hasKey (s : Store) (k x : String) (t : Nat)
    (hx : s.hasKey x = true) :
    (Store.mk ((k, t) :: s.items)).hasKey x = true := by
  rw [hasKey_cons, hx, Bool.or_true]

theorem presentCount_insert_new (P : List String) (s : Store) (k : String)
    (t : Nat) (hkP : k ∈ P) (habs : s.hasKey k = false) :
    presentCount P s + 1 ≤ presentCount P ⟨(k, t) :: s.items⟩ := by
  obtain ⟨l1, l2, rfl⟩ := List.append_of_mem hkP
  simp only [presentCount, List.filter_append, List.length_append]
  have h1 := length_filter_mono (fun x => s.hasKey x)
    (fun x => (Store.mk ((k, t) :: s.items)).hasKey x)
    (fun x hx => hasKey_insert_of_hasKey s k x t hx) l1
  have h2 := length_filter_mono (fun x => s.hasKey x)
    (fun x => (Store.mk ((k, t) :: s.items)).hasKey x)
    (fun x hx => hasKey_insert_of_hasKey s k x t hx) l2
  have hk1 : (List.filter (fun x => s.hasKey x) (k :: l2)).length =
      (List.filter (fun x => s.hasKey x) l2).length := by
    rw [List.filter_cons_of_neg (by simp [habs])]
  have hk2 : (List.filter (fun x => (Store.mk ((k, t) :: s.items)).hasKey x)
      (k :: l2)).length =
      (List.filter (fun x => (Store.mk ((k, t) :: s.items)).hasKey x) l2).length
        + 1 := by
    rw [List.filter_cons_of_pos (by simp [hasKey_cons])]
    simp
  rw [hk1, hk2]
  omega

/-- The global invariant: every caller only probes keys of the probe
list, and the number of callers that returned `true` never exceeds the
number of probe-list keys present in the store. -/
def Inv (P : List String) (sys : Sys) : Prop :=
  (∀ c ∈ sys.callers, ∀ k ∈ c.pending, k ∈ P) ∧
  countTrue sys.callers ≤ presentCount P sys.store

theorem inv_preserved (P : List String) {a b : Sys} (hstep : SysStep a b)
    (hinv : Inv P a) : Inv P b := by
  obtain ⟨hmem, hcount⟩ := hinv
  cases hstep with
  | step i h hrun =>
      set c := a.callers.get ⟨i, h⟩ with hc
      have hcmem : c ∈ a.callers := List.get_mem a.callers i h
      have hmemset : ∀ x ∈ a.callers.set i (callerStep a.store c).2,
          ∀ k ∈ x.pending, k ∈ P := by
        intro x hx
        rcases List.mem_or_eq_of_mem_set hx with hx' | hx'
        · exact hmem x hx'
        · subst hx'
          cases hpend : c.pending with
          | nil => simp [callerStep, hpend]
          | cons k ks =>
              by_cases hkey : a.store.hasKey k
              · simp only [callerStep, hpend, if_pos hkey]
                intro k' hk'
                exact hmem c hcmem k' (hpend ▸ List.mem_cons_of_mem k hk')
              · simp [callerStep, hpend, if_neg hkey]
      refine ⟨hmemset, ?_⟩
      cases hpend : c.pending with
      | nil =>
          have hstep2 : callerStep a.store c =
              (a.store, { c with result := some false }) := by
            simp [callerStep, hpend]
          rw [hstep2]
          show countTrue (a.callers.set i { c with result := some false }) ≤
            presentCount P a.store
          have heq : countTrue (a.callers.set i { c with result := some false })
              = countTrue a.callers :=
            countP_set_pred_eq _ a.callers i c _ h rfl (by simp [hrun]) (by simp)
          rw [heq]
          exact hcount
      | cons k ks =>
          by_cases hkey : a.store.hasKey k
          · have hstep2 : callerStep a.store c =
                (a.store, { c with pending := ks }) := by
              simp [callerStep, hpend, if_pos hkey]
            rw [hstep2]
            show countTrue (a.callers.set i { c with pending := ks }) ≤
              presentCount P a.store
            have heq : countTrue (a.callers.set i { c with pending := ks })
                = countTrue a.callers :=
              countP_set_pred_eq _ a.callers i c _ h rfl (by simp [hrun])
                (by simp [hrun])
            rw [heq]
            exact hcount
          · have hstep2 : callerStep a.store c =
                (⟨(k, c.cnow + 3700) :: a.store.items⟩,
                 { c with pending := [], result := some true }) := by
              simp [callerStep, hpend, if_neg hkey]
            rw [hstep2]
            show countTrue
                (a.callers.set i { c with pending := [], result := some true }) ≤
              presentCount P ⟨(k, c.cnow + 3700) :: a.store.items⟩
            have heq : countTrue
                (a.callers.set i { c with pending := [], result := some true })
                = countTrue a.callers + 1 :=
              countP_set_true _ a.callers i c _ h rfl (by simp [hrun]) (by simp)
            have hkP : k ∈ P :=
              hmem c hcmem k (by rw [hpend]; exact List.mem_cons_self k ks)
            have hincr := presentCount_insert_new P a.store k (c.cnow + 3700)
              hkP (by simpa using hkey)
            rw [heq]
            omega

theorem inv_reach (P : List String) {a b : Sys} (hreach : SysReach a b)
    (hinv : Inv P a) : Inv P b := by
  induction hreach with
  | refl => exact hinv
  | tail _ hstep ih => exact inv_preserved P hstep ih

/-- C1: for every identity and window, across any number of interleaved
concurrent `checkRateLimit` callers sharing the store (each initialised
with the probe list `(ip, hour, 1..limit)`), at most `limit` calls ever
return `true`, because the only keys probed are the `limit` keys of the
probe list and each is created with an atomic create-if-absent write. -/
theorem C1_at_most_limit_successes (limit : Nat) (ip : String) (hour : Nat)
    (init fin : Sys)
    (hinit : ∀ c ∈ init.callers,
      c.pending = probeKeys ip hour limit ∧ c.result = none)
    (hreach : SysReach init fin) :
    countTrue fin.callers ≤ limit := by
  have hinv0 : Inv (probeKeys ip hour limit) init := by
    constructor
    · intro c hc k hk
      rw [(hinit c hc).1] at hk
      exact hk
    · have : countTrue init.callers = 0 := by
        simp only [countTrue]
        rw [List.countP_eq_zero]
        intro c hc
        simp [(hinit c hc).2]
      omega
  have hinv := inv_reach (probeKeys ip hour limit) hreach hinv0
  have hlen : presentCount (probeKeys ip hour limit) fin.store ≤ limit := by
    have h1 : (probeKeys ip hour limit).length = limit := by
      simp [probeKeys]
    calc presentCount (probeKeys ip hour limit) fin.store
        ≤ (probeKeys ip hour limit).length := List.length_filter_le _ _
      _ = limit := h1
  exact le_trans hinv.2 hlen

theorem C1_at_most_limit_successes_witness :
    countTrue [⟨[], 3600, some true⟩, ⟨[], 3605, some false⟩] ≤ 1 := by
  have hstep0 : SysStep
      ⟨Store.empty, [⟨probeKeys "9.9.9.9" 1 1, 3600, none⟩,
        ⟨probeKeys "9.9.9.9" 1 1, 3605, none⟩]⟩
      ⟨⟨[(slotKey "9.9.9.9" 1 1, 7300)]⟩, [⟨[], 3600, some true⟩,
        ⟨probeKeys "9.9.9.9" 1 1, 3605, none⟩]⟩ :=
    SysStep.step _ 0 (by decide) rfl
  have hstep1 : SysStep
      ⟨⟨[(slotKey "9.9.9.9" 1 1, 7300)]⟩, [⟨[], 3600, some true⟩,
        ⟨probeKeys "9.9.9.9" 1 1, 3605, none⟩]⟩
      ⟨⟨[(slotKey "9.9.9.9" 1 1, 7300)]⟩, [⟨[], 3600, some true⟩,
        ⟨[], 3605, none⟩]⟩ :=
    SysStep.step _ 1 (by decide) rfl
  have hstep2 : SysStep
      ⟨⟨[(slotKey "9.9.9.9" 1 1, 7300)]⟩, [⟨[], 3600, some true⟩,
        ⟨[], 3605, none⟩]⟩
      ⟨⟨[(slotKey "9.9.9.9" 1 1, 7300)]⟩, [⟨[], 3600, some true⟩,
        ⟨[], 3605, some false⟩]⟩ :=
    SysStep.step _ 1 (by decide) rfl
  exact C1_at_most_limit_successes 1 "9.9.9.9" 1 _ _ (by decide)
    (SysReach.tail (SysReach.tail (SysReach.tail (SysReach.refl _) hstep0)
      hstep1) hstep2)

/-! ### The Lambda handler (src/index.mjs lines 101-216)

`JSON.parse` is a JS builtin, external to the repository; the handler is
parameterised by its behaviour `jsonParse : String → Option Json`
(`none` = the parse throws).  The SES `ses.send` call is likewise
external; `sesOk = false` means it throws.  Email dispatches attempted
by the handler are appended to a log. -/

/-- JSON values as produced by `JSON.parse`.  Numbers are restricted to
integers and arrays are omitted: no claim distinguishes them, every
field check in the handler only looks at the rendered string of a value,
and this keeps every definition computable. -/
inductive Json where
  | null : Json
  | bool : Bool → Json
  | num : Int → Json
  | str : String → Json
  | obj : List (String × Json) → Json

/-- JS truthiness of a parsed JSON value. -/
def jsTruthy : Json → Bool
  | .null => false
  | .bool b => b
  | .num n => n != 0
  | .str s => s != ""
  | .obj _ => true

/-- JS `String(v)` on a JSON value. -/
def jsToString : Json → String
  | .null => "null"
  | .bool b => if b then "true" else "false"
  | .num n => toString n
  | .str s => s
  | .obj _ => "[object Object]"

/-- JS `String.prototype.trim`: strip leading and trailing whitespace. -/
def jsTrim (s : String) : String :=
  ⟨((s.data.dropWhile Char.isWhitespace).reverse.dropWhile
      Char.isWhitespace).reverse⟩

/-- JS property access `body.f` on a parsed JSON value: absent fields
and non-objects give `undefined` (`none`). -/
def getField (j : Json) (name : String) : Option Json :=
  match j with
  | .obj kvs => (kvs.find? (fun kv => kv.1 == name)).map (fun kv => kv.2)
  | _ => none

/-- The read `String(body.f || "")`: JS `||` replaces an absent or falsy value
with `""`, then `String(...)` renders. -/
def fieldStr (j : Json) (name : String) : String :=
  match getField j name with
  | some v => if jsTruthy v then jsToString v else ""
  | none => ""

/-- Shape of `event.requestContext.http` (HTTP API v2 format). -/
structure HttpCtx where
  method : Option String
  sourceIp : Option String
deriving DecidableEq

/-- Shape of `event.requestContext.identity` (REST API format). -/
structure IdentityCtx where
  sourceIp : Option String
deriving DecidableEq

/-- Shape of `event.requestContext`. -/
structure RequestCtx where
  http : Option HttpCtx
  identity : Option IdentityCtx
deriving DecidableEq

/-- The API Gateway event fields the handler reads. -/
structure Event where
  requestContext : Option RequestCtx
  httpMethod : Option String
  body : Option String
deriving DecidableEq

/-- JS `a || b` on possibly-undefined strings (`""` is falsy). -/
def jsOrStr (a : Option String) (b : Option String) : Option String :=
  match a with
  | some s => if s = "" then b else some s
  | none => b

/-- JS `a || d` with a present default. -/
def jsOrDefault (a : Option String) (d : String) : String :=
  match a with
  | some s => if s = "" then d else s
  | none => d

/-- Function `ipFromEvent` (src/index.mjs lines 34-40):
`event.requestContext?.http?.sourceIp ||
 event.requestContext?.identity?.sourceIp || "0.0.0.0"`. -/
def ipFromEvent (e : Event) : String :=
  jsOrDefault
    (jsOrStr ((e.requestContext.bind RequestCtx.http).bind HttpCtx.sourceIp)
      ((e.requestContext.bind RequestCtx.identity).bind IdentityCtx.sourceIp))
    "0.0.0.0"

/-- Environment configuration (src/index.mjs lines 13-16); an unset
variable is modelled as `""`, which is falsy exactly like `undefined`
in the handler's checks. -/
structure Env where
  TABLE : String
  LIMIT : Nat
  FROM_EMAIL : String
  ALLOWED_ORIGIN : String
deriving DecidableEq

/-- Function `corsHeaders()` (src/index.mjs lines 21-28). -/
def corsHeaders (env : Env) : List (String × String) :=
  [("Access-Control-Allow-Origin", env.ALLOWED_ORIGIN),
   ("Access-Control-Allow-Headers", "Content-Type"),
   ("Access-Control-Allow-Methods", "POST,OPTIONS"),
   ("Vary", "Origin")]

/-- An HTTP response of the handler. -/
structure Response where
  statusCode : Nat
  headers : List (String × String)
  body : String
deriving DecidableEq

/-- The SES `SendEmailCommand` the handler issues (src/index.mjs
lines 174-194). -/
structure Email where
  fromAddress : String
  toAddresses : List String
  replyToAddresses : List String
  subject : String
  bodyText : String
deriving DecidableEq

/-- The Lambda `handler` (src/index.mjs lines 101-216).  Returns the
HTTP response, the final store, and the email-dispatch log (attempted
`ses.send` calls appended to `emails`). -/
def handler (env : Env) (jsonParse : String → Option Json) (faults : Faults)
    (sesOk : Bool) (now : Nat) (event : Event) (store : Store)
    (emails : List Email) : Response × Store × List Email :=
  if jsOrStr ((event.requestContext.bind RequestCtx.http).bind HttpCtx.method)
      event.httpMethod = some "OPTIONS" then
    (⟨204, corsHeaders env, ""⟩, store, emails)
  else if env.TABLE = "" then
    (⟨500, corsHeaders env, "RATE_TABLE not set"⟩, store, emails)
  else if env.FROM_EMAIL = "" then
    (⟨500, corsHeaders env, "FROM_EMAIL not set"⟩, store, emails)
  else
    match jsonParse (jsOrDefault event.body "\x7b\x7d") with
    | none => (⟨500, corsHeaders env, "Server error"⟩, store, emails)
    | some body =>
        if jsTrim (fieldStr body "company") ≠ "" then
          (⟨200, corsHeaders env, "OK"⟩, store, emails)
        else if jsTrim (fieldStr body "name") = "" ∨
            jsTrim (fieldStr body "email") = "" ∨
            jsTrim (fieldStr body "message") = "" then
          (⟨400, corsHeaders env, "Missing fields"⟩, store, emails)
        else
          match checkRateLimit faults env.LIMIT (ipFromEvent event) now store with
          | .error _ => (⟨500, corsHeaders env, "Server error"⟩, store, emails)
          | .ok (false, store2) =>
              (⟨429, corsHeaders env, "Too many requests"⟩, store2, emails)
          | .ok (true, store2) =>
              if sesOk then
                (⟨200, corsHeaders env, "OK"⟩, store2,
                 emails ++ [⟨env.FROM_EMAIL, ["cloudcanvas.team@gmail.com"],
                   [jsTrim (fieldStr body "email")],
                   "New CloudCanvas message from " ++ jsTrim (fieldStr body "name"),
                   jsTrim (fieldStr body "message")⟩])
              else
                (⟨500, corsHeaders env, "Server error"⟩, store2,
                 emails ++ [⟨env.FROM_EMAIL, ["cloudcanvas.team@gmail.com"],
                   [jsTrim (fieldStr body "email")],
                   "New CloudCanvas message from " ++ jsTrim (fieldStr body "name"),
                   jsTrim (fieldStr body "message")⟩])

/-! ### C4, C8 -/

/-- C4: for every request whose parsed `company` field is non-empty
after trimming, the handler returns the 200 success-shaped response with
the store and the email log untouched — under any limit, any store
contents, any fault oracle and any SES outcome (so no store write and no
email dispatch can occur); the honeypot short-circuit fires before field
validation and before the rate-limit check. -/
theorem C4_honeypot (env : Env) (jsonParse : String → Option Json)
    (faults : Faults) (sesOk : Bool) (now : Nat) (event : Event)
    (store : Store) (emails : List Email) (body : Json)
    (hm : jsOrStr ((event.requestContext.bind RequestCtx.http).bind
        HttpCtx.method) event.httpMethod ≠ some "OPTIONS")
    (ht : env.TABLE ≠ "") (hf : env.FROM_EMAIL ≠ "")
    (hp : jsonParse (jsOrDefault event.body "\x7b\x7d") = some body)
    (hc : jsTrim (fieldStr body "company") ≠ "") :
    handler env jsonParse faults sesOk now event store emails =
      (⟨200, corsHeaders env, "OK"⟩, store, emails) := by
  simp [handler, hm, ht, hf, hp, hc]

theorem C4_honeypot_witness :
    handler ⟨"T", 5, "from@x", "o"⟩
      (fun _ => some (Json.obj [("company", Json.str "spam")]))
      (fun _ => some "ServiceUnavailable") false 0
      ⟨none, some "POST", some "x"⟩ Store.empty [] =
      (⟨200, corsHeaders ⟨"T", 5, "from@x", "o"⟩, "OK"⟩, Store.empty, []) :=
  C4_honeypot ⟨"T", 5, "from@x", "o"⟩
    (fun _ => some (Json.obj [("company", Json.str "spam")]))
    (fun _ => some "ServiceUnavailable") false 0
    ⟨none, some "POST", some "x"⟩ Store.empty []
    (Json.obj [("company", Json.str "spam")])
    (by decide) (by decide) (by decide) rfl (by decide)

/-- C8: for every request with empty honeypot field in which `name`,
`email` or `message` is empty after trimming, the handler returns the
400 validation failure with the store and the email log untouched —
under any fault oracle and SES outcome, so no store write and no email
dispatch occurs. -/
theorem C8_missing_fields (env : Env) (jsonParse : String → Option Json)
    (faults : Faults) (sesOk : Bool) (now : Nat) (event : Event)
    (store : Store) (emails : List Email) (body : Json)
    (hm : jsOrStr ((event.requestContext.bind RequestCtx.http).bind
        HttpCtx.method) event.httpMethod ≠ some "OPTIONS")
    (ht : env.TABLE ≠ "") (hf : env.FROM_EMAIL ≠ "")
    (hp : jsonParse (jsOrDefault event.body "\x7b\x7d") = some body)
    (hc : jsTrim (fieldStr body "company") = "")
    (hv : jsTrim (fieldStr body "name") = "" ∨
      jsTrim (fieldStr body "email") = "" ∨
      jsTrim (fieldStr body "message") = "") :
    handler env jsonParse faults sesOk now event store emails =
      (⟨400, corsHeaders env, "Missing fields"⟩, store, emails) := by
  simp [handler, hm, ht, hf, hp, hc, if_pos hv]

theorem C8_missing_fields_witness :
    handler ⟨"T", 5, "from@x", "o"⟩
      (fun _ => some (Json.obj [("name", Json.str "n"), ("email", Json.str "e")]))
      (fun _ => some "ServiceUnavailable") false 0
      ⟨none, some "POST", some "x"⟩ Store.empty [] =
      (⟨400, corsHeaders ⟨"T", 5, "from@x", "o"⟩, "Missing fields"⟩,
        Store.empty, []) :=
  C8_missing_fields ⟨"T", 5, "from@x", "o"⟩
    (fun _ => some (Json.obj [("name", Json.str "n"), ("email", Json.str "e")]))
    (fun _ => some "ServiceUnavailable") false 0
    ⟨none, some "POST", some "x"⟩ Store.empty []
    (Json.obj [("name", Json.str "n"), ("email", Json.str "e")])
    (by decide) (by decide) (by decide) rfl rfl
    (Or.inr (Or.inr rfl))

/-! ### C3: non-contention store errors propagate -/

theorem consume_fault_propagates (faults : Faults) (s : Store) (pk : String)
    (t now : Nat) (e : String) (hf : faults pk = some e)
    (hne : e ≠ "ConditionalCheckFailedException") :
    consume faults s pk t now = .error e := by
  simp [consume, ddbPutIfAbsent, hf, hne]

theorem consume_fault_ccfe (faults : Faults) (s : Store) (pk : String)
    (t now : Nat) (hf : faults pk = some "ConditionalCheckFailedException") :
    consume faults s pk t now = .ok (false, s) := by
  simp [consume, ddbPutIfAbsent, hf]

theorem checkRateLimit_fault_propagates (faults : Faults) (limit : Nat)
    (ip : String) (now : Nat) (s : Store) (e : String) (hlim : 1 ≤ limit)
    (hf : faults (slotKey ip (now / 3600) 1) = some e)
    (hne : e ≠ "ConditionalCheckFailedException") :
    checkRateLimit faults limit ip now s = .error e := by
  cases limit with
  | zero => omega
  | succ m =>
      have hcons := consume_fault_propagates faults s (slotKey ip (now / 3600) 1)
        3700 now e hf hne
      have hpk : probeKeys ip (now / 3600) (m + 1) =
          slotKey ip (now / 3600) 1 ::
            (List.range' 2 m).map (fun i => slotKey ip (now / 3600) i) := rfl
      calc checkRateLimit faults (m + 1) ip now s
          = tryAcquireSlots faults now 3700 (probeKeys ip (now / 3600) (m + 1)) s :=
            rfl
        _ = .error e := by rw [hpk, tryAcquireSlots, hcons]

theorem handler_store_fault (env : Env) (jsonParse : String → Option Json)
    (faults : Faults) (sesOk : Bool) (now : Nat) (event : Event)
    (store : Store) (emails : List Email) (body : Json) (e : String)
    (hm : jsOrStr ((event.requestContext.bind RequestCtx.http).bind
        HttpCtx.method) event.httpMethod ≠ some "OPTIONS")
    (ht : env.TABLE ≠ "") (hfe : env.FROM_EMAIL ≠ "")
    (hp : jsonParse (jsOrDefault event.body "\x7b\x7d") = some body)
    (hc : jsTrim (fieldStr body "company") = "")
    (hn : jsTrim (fieldStr body "name") ≠ "")
    (he : jsTrim (fieldStr body "email") ≠ "")
    (hmsg : jsTrim (fieldStr body "message") ≠ "")
    (herr : checkRateLimit faults env.LIMIT (ipFromEvent event) now store =
      .error e) :
    handler env jsonParse faults sesOk now event store emails =
      (⟨500, corsHeaders env, "Server error"⟩, store, emails) := by
  simp [handler, hm, ht, hfe, hp, hc, hn, he, hmsg, herr]

/-- C3: a store conditional write failing with any error other than
`ConditionalCheckFailedException` propagates out of `consume` and out of
`checkRateLimit`, and makes the handler return the generic 500 response
with the email log untouched (dispatch never invoked); only
`ConditionalCheckFailedException` is handled as control flow, `consume`
then reporting the slot as taken so the loop tries the next slot. -/
theorem C3_store_fault_propagation :
    (∀ (faults : Faults) (s : Store) (pk : String) (t now : Nat) (e : String),
      faults pk = some e → e ≠ "ConditionalCheckFailedException" →
      consume faults s pk t now = .error e) ∧
    (∀ (faults : Faults) (s : Store) (pk : String) (t now : Nat),
      faults pk = some "ConditionalCheckFailedException" →
      consume faults s pk t now = .ok (false, s)) ∧
    (∀ (faults : Faults) (limit : Nat) (ip : String) (now : Nat) (s : Store)
      (e : String), 1 ≤ limit →
      faults (slotKey ip (now / 3600) 1) = some e →
      e ≠ "ConditionalCheckFailedException" →
      checkRateLimit faults limit ip now s = .error e) ∧
    (∀ (env : Env) (jsonParse : String → Option Json) (faults : Faults)
      (sesOk : Bool) (now : Nat) (event : Event) (store : Store)
      (emails : List Email) (body : Json) (e : String),
      jsOrStr ((event.requestContext.bind RequestCtx.http).bind HttpCtx.method)
        event.httpMethod ≠ some "OPTIONS" →
      env.TABLE ≠ "" → env.FROM_EMAIL ≠ "" →
      jsonParse (jsOrDefault event.body "\x7b\x7d") = some body →
      jsTrim (fieldStr body "company") = "" →
      jsTrim (fieldStr body "name") ≠ "" →
      jsTrim (fieldStr body "email") ≠ "" →
      jsTrim (fieldStr body "message") ≠ "" →
      checkRateLimit faults env.LIMIT (ipFromEvent event) now store = .error e →
      handler env jsonParse faults sesOk now event store emails =
        (⟨500, corsHeaders env, "Server error"⟩, store, emails)) :=
  ⟨consume_fault_propagates, consume_fault_ccfe,
   checkRateLimit_fault_propagates, handler_store_fault⟩

theorem C3_store_fault_propagation_witness :
    handler ⟨"T", 5, "from@x", "o"⟩
      (fun _ => some (Json.obj [("name", Json.str "n"),
        ("email", Json.str "e@x"), ("message", Json.str "m")]))
      (fun _ => some "ServiceUnavailable") true 0
      ⟨none, some "POST", some "x"⟩ Store.empty [] =
      (⟨500, corsHeaders ⟨"T", 5, "from@x", "o"⟩, "Server error"⟩,
        Store.empty, []) :=
  C3_store_fault_propagation.2.2.2 ⟨"T", 5, "from@x", "o"⟩
    (fun _ => some (Json.obj [("name", Json.str "n"),
      ("email", Json.str "e@x"), ("message", Json.str "m")]))
    (fun _ => some "ServiceUnavailable") true 0
    ⟨none, some "POST", some "x"⟩ Store.empty []
    (Json.obj [("name", Json.str "n"), ("email", Json.str "e@x"),
      ("message", Json.str "m")])
    "ServiceUnavailable"
    (by decide) (by decide) (by decide) rfl rfl (by decide) (by decide)
    (by decide) rfl

/-! ### C9: invalid JSON vs missing body -/

theorem handler_invalid_json (env : Env) (jsonParse : String → Option Json)
    (faults : Faults) (sesOk : Bool) (now : Nat) (event : Event)
    (store : Store) (emails : List Email) (b : String)
    (hm : jsOrStr ((event.requestContext.bind RequestCtx.http).bind
        HttpCtx.method) event.httpMethod ≠ some "OPTIONS")
    (ht : env.TABLE ≠ "") (hfe : env.FROM_EMAIL ≠ "")
    (hbody : event.body = some b) (hne : b ≠ "")
    (hparse : jsonParse b = none) :
    handler env jsonParse faults sesOk now event store emails =
      (⟨500, corsHeaders env, "Server error"⟩, store, emails) := by
  have hb : jsOrDefault event.body "\x7b\x7d" = b := by
    rw [hbody]; simp [jsOrDefault, hne]
  simp [handler, hm, ht, hfe, hb, hparse]

theorem handler_empty_body (env : Env) (jsonParse : String → Option Json)
    (faults : Faults) (sesOk : Bool) (now : Nat) (event : Event)
    (store : Store) (emails : List Email)
    (hm : jsOrStr ((event.requestContext.bind RequestCtx.http).bind
        HttpCtx.method) event.httpMethod ≠ some "OPTIONS")
    (ht : env.TABLE ≠ "") (hfe : env.FROM_EMAIL ≠ "")
    (hbody : event.body = none ∨ event.body = some "")
    (hparse : jsonParse "\x7b\x7d" = some (Json.obj [])) :
    handler env jsonParse faults sesOk now event store emails =
      (⟨400, corsHeaders env, "Missing fields"⟩, store, emails) := by
  have hb : jsOrDefault event.body "\x7b\x7d" = "\x7b\x7d" := by
    rcases hbody with h | h <;> simp [jsOrDefault, h]
  have hcompany : jsTrim (fieldStr (Json.obj []) "company") = "" := rfl
  have hname : jsTrim (fieldStr (Json.obj []) "name") = "" := rfl
  simp [handler, hm, ht, hfe, hb, hparse, hcompany, hname]

/-- C9: with valid configuration, a non-OPTIONS request whose body is
present and non-empty but fails `JSON.parse` makes the handler return
the generic 500 server-failure response (the parse error reaches the
outer catch), not a 400; a missing or empty body instead parses as the
default empty object and yields the 400 missing-fields response. -/
theorem C9_parse_failure_vs_empty_body :
    (∀ (env : Env) (jsonParse : String → Option Json) (faults : Faults)
      (sesOk : Bool) (now : Nat) (event : Event) (store : Store)
      (emails : List Email) (b : String),
      jsOrStr ((event.requestContext.bind RequestCtx.http).bind HttpCtx.method)
        event.httpMethod ≠ some "OPTIONS" →
      env.TABLE ≠ "" → env.FROM_EMAIL ≠ "" →
      event.body = some b → b ≠ "" → jsonParse b = none →
      handler env jsonParse faults sesOk now event store emails =
        (⟨500, corsHeaders env, "Server error"⟩, store, emails)) ∧
    (∀ (env : Env) (jsonParse : String → Option Json) (faults : Faults)
      (sesOk : Bool) (now : Nat) (event : Event) (store : Store)
      (emails : List Email),
      jsOrStr ((event.requestContext.bind RequestCtx.http).bind HttpCtx.method)
        event.httpMethod ≠ some "OPTIONS" →
      env.TABLE ≠ "" → env.FROM_EMAIL ≠ "" →
      (event.body = none ∨ event.body = some "") →
      jsonParse "\x7b\x7d" = some (Json.obj []) →
      handler env jsonParse faults sesOk now event store emails =
        (⟨400, corsHeaders env, "Missing fields"⟩, store, emails)) :=
  ⟨handler_invalid_json, handler_empty_body⟩

theorem C9_parse_failure_vs_empty_body_witness :
    handler ⟨"T", 5, "from@x", "o"⟩ (fun _ => none)
      (fun _ => none) true 0 ⟨none, some "POST", some "not json"⟩
      Store.empty [] =
      (⟨500, corsHeaders ⟨"T", 5, "from@x", "o"⟩, "Server error"⟩,
        Store.empty, []) :=
  C9_parse_failure_vs_empty_body.1 ⟨"T", 5, "from@x", "o"⟩ (fun _ => none)
    (fun _ => none) true 0 ⟨none, some "POST", some "not json"⟩
    Store.empty [] "not json"
    (by decide) (by decide) (by decide) rfl (by decide) rfl

/-! ### C10: missing source IP falls back to a shared identity -/

theorem ipFromEvent_default (e : Event)
    (h1 : (e.requestContext.bind RequestCtx.http).bind HttpCtx.sourceIp = none ∨
      (e.requestContext.bind RequestCtx.http).bind HttpCtx.sourceIp = some "")
    (h2 : (e.requestContext.bind RequestCtx.identity).bind
        IdentityCtx.sourceIp = none ∨
      (e.requestContext.bind RequestCtx.identity).bind
        IdentityCtx.sourceIp = some "") :
    ipFromEvent e = "0.0.0.0" := by
  rcases h1 with h | h <;> rcases h2 with h' | h' <;>
    simp [ipFromEvent, jsOrStr, jsOrDefault, h, h']

/-- C10: an event that carries no source IP (absent or empty in both
`requestContext.http.sourceIp` and `requestContext.identity.sourceIp`)
is rate-limited under the fixed identity `"0.0.0.0"`; consequently all
such events probe the same slot keys and share one per-window quota. -/
theorem C10_shared_default_identity :
    (∀ e : Event,
      ((e.requestContext.bind RequestCtx.http).bind HttpCtx.sourceIp = none ∨
        (e.requestContext.bind RequestCtx.http).bind HttpCtx.sourceIp =
          some "") →
      ((e.requestContext.bind RequestCtx.identity).bind
          IdentityCtx.sourceIp = none ∨
        (e.requestContext.bind RequestCtx.identity).bind
          IdentityCtx.sourceIp = some "") →
      ipFromEvent e = "0.0.0.0") ∧
    (∀ (e1 e2 : Event) (hour limit : Nat),
      ((e1.requestContext.bind RequestCtx.http).bind HttpCtx.sourceIp = none ∨
        (e1.requestContext.bind RequestCtx.http).bind HttpCtx.sourceIp =
          some "") →
      ((e1.requestContext.bind RequestCtx.identity).bind
          IdentityCtx.sourceIp = none ∨
        (e1.requestContext.bind RequestCtx.identity).bind
          IdentityCtx.sourceIp = some "") →
      ((e2.requestContext.bind RequestCtx.http).bind HttpCtx.sourceIp = none ∨
        (e2.requestContext.bind RequestCtx.http).bind HttpCtx.sourceIp =
          some "") →
      ((e2.requestContext.bind RequestCtx.identity).bind
          IdentityCtx.sourceIp = none ∨
        (e2.requestContext.bind RequestCtx.identity).bind
          IdentityCtx.sourceIp = some "") →
      probeKeys (ipFromEvent e1) hour limit =
        probeKeys (ipFromEvent e2) hour limit) := by
  refine ⟨ipFromEvent_default, ?_⟩
  intro e1 e2 hour limit h1 h2 h3 h4
  rw [ipFromEvent_default e1 h1 h2, ipFromEvent_default e2 h3 h4]

theorem C10_shared_default_identity_witness :
    ipFromEvent ⟨none, some "POST", some "x"⟩ = "0.0.0.0" :=
  C10_shared_default_identity.1 ⟨none, some "POST", some "x"⟩
    (Or.inl rfl) (Or.inl rfl)

end ContactApi
